import Mathlib

/-!
Shallow embedding of the catfetch catdb store (pkg catdb): a versioned,
content-addressable image store over bbolt. The bbolt key space is modelled
as a tree of buckets (association lists in insertion order); each catdb
function below mirrors the corresponding source function, and bbolt / Go
standard library primitives are modelled from their documented semantics.
-/

namespace CatDB

/-- Values stored at leaf keys of the bbolt tree: Go byte slices. Metadata
fields are written as byte casts of strings and the image payload as raw
bytes, so the two cases are kept apart syntactically. -/
inductive DBVal where
  | str (s : String)
  | bytes (b : List Nat)

/-- A node of the bbolt key space: either a leaf value or a nested bucket,
an association list of keys to child nodes in insertion order. -/
inductive Node where
  | val (v : DBVal)
  | bucket (entries : List (String × Node))

/-- A bucket body: keys paired with child nodes. -/
abbrev Bucket := List (String × Node)

/-- The root of one bbolt database file: the top level buckets. -/
abbrev Store := Bucket

/-- Lookup of a key inside a bucket (bbolt Bucket.Get and Bucket.Bucket). -/
def bucketGet : Bucket → String → Option Node
  | [], _ => none
  | (k, n) :: rest, key => if k = key then some n else bucketGet rest key

/-- Replace the entry at a key in place, or append a fresh entry. -/
def bucketSet : Bucket → String → Node → Bucket
  | [], key, n => [(key, n)]
  | (k, m) :: rest, key, n =>
      if k = key then (key, n) :: rest else (k, m) :: bucketSet rest key n

/-- Errors of the embedded engine and the store lifecycle. -/
inductive DBError where
  | bucketNameRequired
  | incompatibleValue
  | keyRequired
  | keyTooLarge
  | valueTooLarge
  | nilBucketDeref
  | openFailed

/-- Byte size of a stored value (Go length of the byte slice). -/
def valSize : DBVal → Nat
  | .str s => s.utf8ByteSize
  | .bytes b => b.length

/-- Modelled from bbolt Bucket.CreateBucketIfNotExists: an empty name is
rejected, a key already holding a plain value is incompatible, an existing
child bucket is returned as is, and a missing key receives a fresh empty
bucket. Returns the updated parent together with the child bucket body. -/
def createBucketIfNotExists (b : Bucket) (key : String) :
    Except DBError (Bucket × Bucket) :=
  if key = "" then .error .bucketNameRequired
  else
    match bucketGet b key with
    | some (Node.bucket child) => .ok (b, child)
    | some (Node.val _) => .error .incompatibleValue
    | none => .ok (bucketSet b key (Node.bucket []), [])

/-- Modelled from bbolt Bucket.Put: empty keys are rejected, oversized keys
or values are rejected, and a key currently holding a nested bucket is
incompatible; otherwise the value replaces whatever the key held. -/
def bucketPut (b : Bucket) (key : String) (v : DBVal) : Except DBError Bucket :=
  if key = "" then .error .keyRequired
  else if 32768 < key.utf8ByteSize then .error .keyTooLarge
  else if 2147483646 < valSize v then .error .valueTooLarge
  else
    match bucketGet b key with
    | some (Node.bucket _) => .error .incompatibleValue
    | _ => .ok (bucketSet b key (.val v))

/-- Top level bucket name from the source constants. -/
def bucketCats : String := "cats"

/-- Metadata bucket name from the source constants. -/
def bucketMetadata : String := "metadata"

/-- Data bucket name from the source constants. -/
def bucketData : String := "data"

/-- Payload key from the source constants. -/
def dbKeyImgData : String := "img_data"

/-- Metadata field key from the source constants. -/
def dbKeyMetaId : String := "cat_id"

/-- Metadata field key from the source constants. -/
def dbKeyMetaTags : String := "tags"

/-- Metadata field key from the source constants. -/
def dbKeyMetaCreatedAt : String := "created_at"

/-- Metadata field key from the source constants. -/
def dbKeyMetaURL : String := "url"

/-- Metadata field key from the source constants. -/
def dbKeyMetaMIMEType : String := "mime_type"

/-- Modelled from Go time.Time restricted to whole second UTC instants,
which is all AddCatVersion observes through Format with time.RFC3339. -/
structure GoTime where
  year : Nat
  month : Nat
  day : Nat
  hour : Nat
  minute : Nat
  second : Nat

/-- Left pad a number to two digits. -/
def pad2 (n : Nat) : String :=
  if n < 10 then "0" ++ toString n else toString n

/-- Left pad a number to four digits. -/
def pad4 (n : Nat) : String :=
  if n < 10 then "000" ++ toString n
  else if n < 100 then "00" ++ toString n
  else if n < 1000 then "0" ++ toString n
  else toString n

/-- Go Format with layout time.RFC3339 for a UTC instant: a fixed,
parseable textual timestamp such as 2025-01-01T12:00:00Z. -/
def formatRFC3339 (t : GoTime) : String :=
  pad4 t.year ++ "-" ++ pad2 t.month ++ "-" ++ pad2 t.day ++ "T" ++
    pad2 t.hour ++ ":" ++ pad2 t.minute ++ ":" ++ pad2 t.second ++ "Z"

/-- The metadata record consumed by AddCatVersion, with the fields the
source reads: ID, Tags, CreatedAt, URL, MIMEType. -/
structure CatMetadata where
  ID : String
  Tags : List String
  CreatedAt : GoTime
  URL : String
  MIMEType : String

/-- FNV-64a offset basis, from Go hash fnv. -/
def fnvOffsetBasis64 : Nat := 14695981039346656037

/-- FNV-64a prime, from Go hash fnv. -/
def fnvPrime64 : Nat := 1099511628211

/-- One byte of FNV-64a: xor then multiply, within 64 bits. -/
def fnv64aStep (h b : Nat) : Nat := ((h ^^^ b) * fnvPrime64) % 2 ^ 64

/-- UTF-8 encoding of one code point, as byte values. -/
def utf8EncodeCharNat (c : Nat) : List Nat :=
  if c < 128 then [c]
  else if c < 2048 then [192 + c / 64, 128 + c % 64]
  else if c < 65536 then [224 + c / 4096, 128 + c / 64 % 64, 128 + c % 64]
  else [240 + c / 262144, 128 + c / 4096 % 64, 128 + c / 64 % 64, 128 + c % 64]

/-- UTF-8 bytes of a list of characters. -/
def strBytesAux : List Char → List Nat
  | [] => []
  | c :: cs => utf8EncodeCharNat c.toNat ++ strBytesAux cs

/-- The bytes of a Go string: its UTF-8 encoding. -/
def strBytes (s : String) : List Nat := strBytesAux s.data

/-- The FNV-64a digest of a byte sequence. -/
def fnv64a (data : List Nat) : Nat := data.foldl fnv64aStep fnvOffsetBasis64

/-- Modelled from Go hash fnv sum64a.Write, which folds the bytes into the
state and unconditionally reports a nil error. -/
def fnvWrite (h : Nat) (data : List Nat) : Nat × Nat × Option DBError :=
  (data.foldl fnv64aStep h, data.length, none)

/-- Lowercase hex digit. -/
def hexDigitChar (n : Nat) : Char :=
  if n < 10 then Char.ofNat (48 + n) else Char.ofNat (87 + n)

/-- Minimal width hex rendering, one nibble per fuel step; 16 nibbles cover
every 64 bit value. -/
def hexCharsAux : Nat → Nat → List Char → List Char
  | 0, _, acc => acc
  | fuel + 1, n, acc =>
      if n < 16 then hexDigitChar n :: acc
      else hexCharsAux fuel (n / 16) (hexDigitChar (n % 16) :: acc)

/-- Go Sprintf with the x verb on a 64 bit value: minimal width lowercase
hex, no zero padding. -/
def sprintfHex (n : Nat) : String := String.mk (hexCharsAux 16 n [])

/-- The hex fingerprint AddCatVersion uses as a version id. -/
def hashHex (url : String) : String := sprintfHex (fnv64a (strBytes url))

/-- hashURL from the source: FNV-64a over the URL bytes rendered in hex;
the error branch mirrors the checked result of Write. -/
def hashURL (url : String) : Except DBError String :=
  match fnvWrite fnvOffsetBasis64 (strBytes url) with
  | (h, _, none) => .ok (sprintfHex h)
  | (_, _, some e) => .error e

/-- InitDB from the source: one Update transaction that creates the top
level cats bucket if missing. -/
def InitDB (s : Store) : Except DBError Store :=
  match createBucketIfNotExists s bucketCats with
  | .error e => .error e
  | .ok (s1, _) => .ok s1

/-- OpenDB from the source: bbolt.Open followed by InitDB. The filesystem
outcome of bbolt.Open is passed in: an error when the file cannot be
opened, created or locked, otherwise the root contents of the opened
file. -/
def OpenDB (openResult : Except DBError Store) : Except DBError Store :=
  match openResult with
  | .error e => .error e
  | .ok s =>
      match InitDB s with
      | .error e => .error e
      | .ok s1 => .ok s1

/-- The five metadata Put calls of AddCatVersion, in source order. -/
def writeMetaFields (b : Bucket) (md : CatMetadata) : Except DBError Bucket :=
  match bucketPut b dbKeyMetaId (.str md.ID) with
  | .error e => .error e
  | .ok b1 =>
      match bucketPut b1 dbKeyMetaTags (.str (String.intercalate ", " md.Tags)) with
      | .error e => .error e
      | .ok b2 =>
          match bucketPut b2 dbKeyMetaCreatedAt (.str (formatRFC3339 md.CreatedAt)) with
          | .error e => .error e
          | .ok b3 =>
              match bucketPut b3 dbKeyMetaURL (.str md.URL) with
              | .error e => .error e
              | .ok b4 => bucketPut b4 dbKeyMetaMIMEType (.str md.MIMEType)

/-- The part of the AddCatVersion transaction inside one version bucket:
create the metadata bucket, write its five fields, create the data bucket,
write the payload, in source order. -/
def writeVersionBody (version : Bucket) (md : CatMetadata) (catData : List Nat) :
    Except DBError Bucket :=
  match createBucketIfNotExists version bucketMetadata with
  | .error e => .error e
  | .ok (version1, mdB0) =>
      match writeMetaFields mdB0 md with
      | .error e => .error e
      | .ok mdB =>
          match createBucketIfNotExists
              (bucketSet version1 bucketMetadata (Node.bucket mdB)) bucketData with
          | .error e => .error e
          | .ok (version2, dataB0) =>
              match bucketPut dataB0 dbKeyImgData (.bytes catData) with
              | .error e => .error e
              | .ok dataB => .ok (bucketSet version2 bucketData (Node.bucket dataB))

/-- The body of the AddCatVersion Update transaction on the root: the cats
bucket lookup (a missing cats bucket would be a nil dereference in the
source), then the entity bucket, the version bucket, and the version
body. -/
def addCatVersionTx (root : Store) (md : CatMetadata) (versionId : String)
    (catData : List Nat) : Except DBError Store :=
  match bucketGet root bucketCats with
  | some (Node.bucket b) =>
      match createBucketIfNotExists b md.ID with
      | .error e => .error e
      | .ok (b1, cat) =>
          match createBucketIfNotExists cat versionId with
          | .error e => .error e
          | .ok (cat1, version) =>
              match writeVersionBody version md catData with
              | .error e => .error e
              | .ok version1 =>
                  .ok (bucketSet root bucketCats (Node.bucket
                    (bucketSet b1 md.ID (Node.bucket
                      (bucketSet cat1 versionId (Node.bucket version1))))))
  | _ => .error .nilBucketDeref

/-- AddCatVersion from the source: derive the version id from the URL, run
the write transaction (db.Update rolls the state back when the body
errors), and return the entity id and version id pair on success. -/
def AddCatVersion (s : Store) (md : CatMetadata) (catData : List Nat) :
    Except DBError (String × String) × Store :=
  match hashURL md.URL with
  | .error e => (.error e, s)
  | .ok versionId =>
      match addCatVersionTx s md versionId catData with
      | .error e => (.error e, s)
      | .ok s1 => (.ok (md.ID, versionId), s1)

/-- Child lookup through a node. -/
def nodeGet : Node → String → Option Node
  | Node.bucket b, k => bucketGet b k
  | Node.val _, _ => none

/-- Walk a key path from the root. -/
def pathGet (s : Store) (path : List String) : Option Node :=
  path.foldl (fun acc k => acc.bind (fun n => nodeGet n k)) (some (Node.bucket s))

/-- Number of version buckets under one entity. -/
def versionCount (s : Store) (entityId : String) : Nat :=
  match pathGet s [bucketCats, entityId] with
  | some (Node.bucket cat) => cat.length
  | _ => 0

/-- The metadata bucket contents AddCatVersion lays down. -/
def canonMeta (md : CatMetadata) : Bucket :=
  [(dbKeyMetaId, Node.val (.str md.ID)),
   (dbKeyMetaTags, Node.val (.str (String.intercalate ", " md.Tags))),
   (dbKeyMetaCreatedAt, Node.val (.str (formatRFC3339 md.CreatedAt))),
   (dbKeyMetaURL, Node.val (.str md.URL)),
   (dbKeyMetaMIMEType, Node.val (.str md.MIMEType))]

/-- The data bucket contents AddCatVersion lays down. -/
def canonData (d : List Nat) : Bucket := [(dbKeyImgData, Node.val (.bytes d))]

/-- The contents of a version bucket written by AddCatVersion. -/
def canonContents (md : CatMetadata) (d : List Nat) : Bucket :=
  [(bucketMetadata, Node.bucket (canonMeta md)),
   (bucketData, Node.bucket (canonData d))]

/-- The exact version subtree AddCatVersion lays down. -/
def canonicalVersion (md : CatMetadata) (catData : List Nat) : Node :=
  Node.bucket (canonContents md catData)

/-- The root contents right after OpenDB on a fresh file. -/
def initStore : Store := [(bucketCats, Node.bucket [])]

/-- The timestamp of the concrete scenario. -/
def t0 : GoTime := ⟨2025, 1, 1, 12, 0, 0⟩

/-- The concrete scenario metadata record. -/
def mdC1 : CatMetadata :=
  ⟨"c1", ["a", "b"], t0, "https://x/1.png", "image/png"⟩

/-- The concrete scenario payload: a PNG header prefix. -/
def bytes1 : List Nat := [137, 80, 78, 71, 13, 10, 26, 10]

/-- A second concrete record: same entity, different source URL. -/
def mdC2 : CatMetadata :=
  ⟨"c1", ["a"], t0, "https://x/2.png", "image/jpeg"⟩

/-- A record whose URL collides with mdColl2 under FNV-64a. -/
def mdColl1 : CatMetadata :=
  ⟨"c1", [], t0, "8yn0iYCKYHlIj4-BwPqk", "image/png"⟩

/-- A record whose URL collides with mdColl1 under FNV-64a. -/
def mdColl2 : CatMetadata :=
  ⟨"c1", [], t0, "GReLUrM4wMqfg9yzV3KQ", "image/png"⟩

/-- The five metadata values, as set by writeMetaFields. -/
def metaSets (b : Bucket) (md : CatMetadata) : Bucket :=
  bucketSet (bucketSet (bucketSet (bucketSet (bucketSet b
    dbKeyMetaId (.val (.str md.ID)))
    dbKeyMetaTags (.val (.str (String.intercalate ", " md.Tags))))
    dbKeyMetaCreatedAt (.val (.str (formatRFC3339 md.CreatedAt))))
    dbKeyMetaURL (.val (.str md.URL)))
    dbKeyMetaMIMEType (.val (.str md.MIMEType))


/-- Setting a key makes it readable. -/
theorem bucketGet_set_self (b : Bucket) (k : String) (n : Node) :
    bucketGet (bucketSet b k n) k = some n := by
  induction b with
  | nil => simp [bucketSet, bucketGet]
  | cons hd tl ih =>
      obtain ⟨k1, n1⟩ := hd
      by_cases hk : k1 = k
      · simp [bucketSet, hk, bucketGet]
      · simp [bucketSet, hk, bucketGet, ih]

/-- Setting a key leaves every other key unchanged. -/
theorem bucketGet_set_ne (b : Bucket) (k key : String) (n : Node) (h : key ≠ k) :
    bucketGet (bucketSet b k n) key = bucketGet b key := by
  have h2 : k ≠ key := fun hh => h hh.symm
  induction b with
  | nil => simp [bucketSet, bucketGet, h2]
  | cons hd tl ih =>
      obtain ⟨k1, n1⟩ := hd
      by_cases hk : k1 = k
      · subst hk
        simp [bucketSet, bucketGet, h2]
      · by_cases hkey : k1 = key
        · simp [bucketSet, bucketGet, hk, hkey, h]
        · simp [bucketSet, bucketGet, hk, hkey, ih]

/-- Rewriting a key with the node it already holds is a no-op. -/
theorem bucketSet_get_self (b : Bucket) (k : String) (n : Node)
    (h : bucketGet b k = some n) : bucketSet b k n = b := by
  induction b with
  | nil => simp [bucketGet] at h
  | cons hd tl ih =>
      obtain ⟨k1, n1⟩ := hd
      by_cases hk : k1 = k
      · subst hk
        simp [bucketGet] at h
        simp [bucketSet, h]
      · simp [bucketGet, hk] at h
        simp [bucketSet, hk, ih h]

/-- Success of CreateBucketIfNotExists when the child bucket is present. -/
theorem createB_exists_case (b : Bucket) (k : String) (c : Bucket)
    (hk : ¬ k = "") (hget : bucketGet b k = some (Node.bucket c)) :
    createBucketIfNotExists b k = .ok (b, c) := by
  unfold createBucketIfNotExists
  rw [if_neg hk, hget]

/-- Success of CreateBucketIfNotExists when the key is absent. -/
theorem createB_none_case (b : Bucket) (k : String)
    (hk : ¬ k = "") (hget : bucketGet b k = none) :
    createBucketIfNotExists b k = .ok (bucketSet b k (Node.bucket []), []) := by
  unfold createBucketIfNotExists
  rw [if_neg hk, hget]

/-- What a successful CreateBucketIfNotExists guarantees: a nonempty name,
the child readable in the updated parent, and all other keys untouched. -/
theorem createB_ok_parts (b b1 c : Bucket) (k : String)
    (h : createBucketIfNotExists b k = .ok (b1, c)) :
    ¬ k = "" ∧ bucketGet b1 k = some (Node.bucket c) ∧
      ∀ key, key ≠ k → bucketGet b1 key = bucketGet b key := by
  unfold createBucketIfNotExists at h
  split at h
  · simp at h
  rename_i hk
  refine ⟨hk, ?_⟩
  split at h
  · rename_i child hget
    simp only [Except.ok.injEq, Prod.mk.injEq] at h
    obtain ⟨rfl, rfl⟩ := h
    exact ⟨hget, fun key hkey => rfl⟩
  · simp at h
  · rename_i hget
    simp only [Except.ok.injEq, Prod.mk.injEq] at h
    obtain ⟨rfl, rfl⟩ := h
    exact ⟨bucketGet_set_self b k (Node.bucket []),
      fun key hkey => bucketGet_set_ne b k key (Node.bucket []) hkey⟩

/-- What a successful Put guarantees: the guards passed and the result is
the in-place update. -/
theorem bucketPut_ok_conds (b b1 : Bucket) (k : String) (v : DBVal)
    (h : bucketPut b k v = .ok b1) :
    ¬ k = "" ∧ ¬ 32768 < k.utf8ByteSize ∧ ¬ 2147483646 < valSize v ∧
      b1 = bucketSet b k (.val v) := by
  unfold bucketPut at h
  split at h
  · simp at h
  rename_i hk
  split at h
  · simp at h
  rename_i hks
  split at h
  · simp at h
  rename_i hvs
  split at h
  · simp at h
  · simp only [Except.ok.injEq] at h
    exact ⟨hk, hks, hvs, h.symm⟩

/-- Re-putting the value a key already holds succeeds and is a no-op. -/
theorem bucketPut_val_again (b : Bucket) (k : String) (v : DBVal)
    (hk : ¬ k = "") (hks : ¬ 32768 < k.utf8ByteSize)
    (hvs : ¬ 2147483646 < valSize v)
    (hget : bucketGet b k = some (.val v)) :
    bucketPut b k v = .ok b := by
  unfold bucketPut
  rw [if_neg hk, if_neg hks, if_neg hvs, hget]
  simp [bucketSet_get_self b k (Node.val v) hget]

/-- A successful field write is exactly the five in-place updates. -/
theorem writeMetaFields_ok_shape (b b5 : Bucket) (md : CatMetadata)
    (h : writeMetaFields b md = .ok b5) : b5 = metaSets b md := by
  unfold writeMetaFields at h
  split at h
  · simp at h
  rename_i b1 h1
  split at h
  · simp at h
  rename_i b2 h2
  split at h
  · simp at h
  rename_i b3 h3
  split at h
  · simp at h
  rename_i b4 h4
  obtain ⟨-, -, -, e1⟩ := bucketPut_ok_conds _ _ _ _ h1
  obtain ⟨-, -, -, e2⟩ := bucketPut_ok_conds _ _ _ _ h2
  obtain ⟨-, -, -, e3⟩ := bucketPut_ok_conds _ _ _ _ h3
  obtain ⟨-, -, -, e4⟩ := bucketPut_ok_conds _ _ _ _ h4
  obtain ⟨-, -, -, e5⟩ := bucketPut_ok_conds _ _ _ _ h
  subst e1 e2 e3 e4
  rw [e5]
  rfl

/-- The decomposition of a successful version body write. -/
theorem writeVersionBody_ok_shape (version v1 : Bucket) (md : CatMetadata)
    (d : List Nat) (h : writeVersionBody version md d = .ok v1) :
    ∃ versionA mdB0 mdB versionB dataB0,
      createBucketIfNotExists version bucketMetadata = .ok (versionA, mdB0) ∧
      writeMetaFields mdB0 md = .ok mdB ∧
      createBucketIfNotExists (bucketSet versionA bucketMetadata (Node.bucket mdB))
        bucketData = .ok (versionB, dataB0) ∧
      bucketPut dataB0 dbKeyImgData (.bytes d) =
        .ok (bucketSet dataB0 dbKeyImgData (.val (.bytes d))) ∧
      v1 = bucketSet versionB bucketData
        (Node.bucket (bucketSet dataB0 dbKeyImgData (.val (.bytes d)))) := by
  unfold writeVersionBody at h
  split at h
  · simp at h
  rename_i versionA mdB0 hA
  split at h
  · simp at h
  rename_i mdB hMd
  split at h
  · simp at h
  rename_i versionB dataB0 hB
  split at h
  · simp at h
  rename_i dataB hPut
  obtain ⟨-, -, -, eD⟩ := bucketPut_ok_conds _ _ _ _ hPut
  subst eD
  simp only [Except.ok.injEq] at h
  exact ⟨versionA, mdB0, mdB, versionB, dataB0, hA, hMd, hB, hPut, h.symm⟩

/-- Setting the same key twice keeps only the second node. -/
theorem bucketSet_set_same (b : Bucket) (k : String) (n m : Node) :
    bucketSet (bucketSet b k n) k m = bucketSet b k m := by
  induction b with
  | nil => simp [bucketSet]
  | cons hd tl ih =>
      obtain ⟨k1, n1⟩ := hd
      by_cases hk : k1 = k
      · simp [bucketSet, hk]
      · simp [bucketSet, hk, ih]

/-- Every FNV-64a step stays below 64 bits. -/
theorem fnv64aStep_lt (h b : Nat) : fnv64aStep h b < 2 ^ 64 :=
  Nat.mod_lt _ (by norm_num)

/-- Folding FNV-64a steps stays below 64 bits. -/
theorem foldl_fnv64aStep_lt (l : List Nat) (h : Nat) (hh : h < 2 ^ 64) :
    l.foldl fnv64aStep h < 2 ^ 64 := by
  induction l generalizing h with
  | nil => simpa using hh
  | cons x xs ih => exact ih _ (fnv64aStep_lt h x)

/-- The digest is a 64 bit value. -/
theorem fnv64a_lt (data : List Nat) : fnv64a data < 2 ^ 64 :=
  foldl_fnv64aStep_lt data fnvOffsetBasis64 (by decide)

/-- The hex renderer emits at most one character per fuel step. -/
theorem hexCharsAux_len_le (fuel : Nat) : ∀ n acc, n < 16 ^ fuel →
    (hexCharsAux fuel n acc).length ≤ fuel + acc.length := by
  induction fuel with
  | zero => intro n acc hn; simp [hexCharsAux]
  | succ f ih =>
      intro n acc hn
      unfold hexCharsAux
      split
      · rw [List.length_cons]
        omega
      · rename_i hge
        have hdiv : n / 16 < 16 ^ f := by
          rw [Nat.div_lt_iff_lt_mul (by norm_num)]
          calc n < 16 ^ (f + 1) := hn
          _ = 16 ^ f * 16 := by ring
        have hrec := ih (n / 16) (hexDigitChar (n % 16) :: acc) hdiv
        rw [List.length_cons] at hrec
        omega

/-- The hex renderer emits at least one character given fuel. -/
theorem hexCharsAux_len_ge (fuel : Nat) : ∀ n acc,
    acc.length + 1 ≤ (hexCharsAux (fuel + 1) n acc).length := by
  induction fuel with
  | zero =>
      intro n acc
      unfold hexCharsAux
      split
      · simp
      · unfold hexCharsAux
        simp
  | succ f ih =>
      intro n acc
      unfold hexCharsAux
      split
      · simp
      · calc acc.length + 1
            ≤ (hexDigitChar (n % 16) :: acc).length + 1 := by simp
          _ ≤ (hexCharsAux (f + 1) (n / 16) (hexDigitChar (n % 16) :: acc)).length :=
            ih _ _

/-- Writing the version body into an empty version bucket produces exactly
the canonical contents. -/
theorem writeVersionBody_from_nil (md : CatMetadata) (d : List Nat)
    (ver : Bucket) (h : writeVersionBody [] md d = .ok ver) :
    ver = canonContents md d := by
  obtain ⟨versionA, mdB0, mdB, versionB, dataB0, hA, hMd, hB, hPut, hV⟩ :=
    writeVersionBody_ok_shape _ _ _ _ h
  have hmdB := writeMetaFields_ok_shape _ _ _ hMd
  subst hmdB
  have cA : createBucketIfNotExists ([] : Bucket) bucketMetadata =
      .ok ([(bucketMetadata, Node.bucket [])], []) := rfl
  rw [cA] at hA
  simp only [Except.ok.injEq, Prod.mk.injEq] at hA
  obtain ⟨rfl, rfl⟩ := hA
  have m1 : metaSets [] md = canonMeta md := rfl
  rw [m1] at hB
  have s1 : bucketSet [(bucketMetadata, Node.bucket [])] bucketMetadata
      (Node.bucket (canonMeta md)) =
      [(bucketMetadata, Node.bucket (canonMeta md))] := rfl
  rw [s1] at hB
  have cB : createBucketIfNotExists
      [(bucketMetadata, Node.bucket (canonMeta md))] bucketData =
      .ok ([(bucketMetadata, Node.bucket (canonMeta md)),
            (bucketData, Node.bucket [])], []) := rfl
  rw [cB] at hB
  simp only [Except.ok.injEq, Prod.mk.injEq] at hB
  obtain ⟨rfl, rfl⟩ := hB
  rw [hV]
  rfl

/-- Re-writing the version body over canonical contents produces exactly
the canonical contents for the new record and payload. -/
theorem writeVersionBody_from_canon (md0 md : CatMetadata) (d0 d : List Nat)
    (ver : Bucket) (h : writeVersionBody (canonContents md0 d0) md d = .ok ver) :
    ver = canonContents md d := by
  obtain ⟨versionA, mdB0, mdB, versionB, dataB0, hA, hMd, hB, hPut, hV⟩ :=
    writeVersionBody_ok_shape _ _ _ _ h
  have hmdB := writeMetaFields_ok_shape _ _ _ hMd
  subst hmdB
  have cA : createBucketIfNotExists (canonContents md0 d0) bucketMetadata =
      .ok (canonContents md0 d0, canonMeta md0) := rfl
  rw [cA] at hA
  simp only [Except.ok.injEq, Prod.mk.injEq] at hA
  obtain ⟨rfl, rfl⟩ := hA
  have m1 : metaSets (canonMeta md0) md = canonMeta md := rfl
  rw [m1] at hB
  have s1 : bucketSet (canonContents md0 d0) bucketMetadata
      (Node.bucket (canonMeta md)) =
      [(bucketMetadata, Node.bucket (canonMeta md)),
       (bucketData, Node.bucket (canonData d0))] := rfl
  rw [s1] at hB
  have cB : createBucketIfNotExists
      [(bucketMetadata, Node.bucket (canonMeta md)),
       (bucketData, Node.bucket (canonData d0))] bucketData =
      .ok ([(bucketMetadata, Node.bucket (canonMeta md)),
            (bucketData, Node.bucket (canonData d0))], canonData d0) := rfl
  rw [cB] at hB
  simp only [Except.ok.injEq, Prod.mk.injEq] at hB
  obtain ⟨rfl, rfl⟩ := hB
  rw [hV]
  rfl

/-- The field values are readable after the five updates. -/
theorem metaSets_get (b : Bucket) (md : CatMetadata) :
    bucketGet (metaSets b md) dbKeyMetaId = some (.val (.str md.ID)) ∧
    bucketGet (metaSets b md) dbKeyMetaTags =
      some (.val (.str (String.intercalate ", " md.Tags))) ∧
    bucketGet (metaSets b md) dbKeyMetaCreatedAt =
      some (.val (.str (formatRFC3339 md.CreatedAt))) ∧
    bucketGet (metaSets b md) dbKeyMetaURL = some (.val (.str md.URL)) ∧
    bucketGet (metaSets b md) dbKeyMetaMIMEType =
      some (.val (.str md.MIMEType)) := by
  unfold metaSets
  refine ⟨?_, ?_, ?_, ?_, ?_⟩
  · rw [bucketGet_set_ne _ _ _ _ (by decide), bucketGet_set_ne _ _ _ _ (by decide),
      bucketGet_set_ne _ _ _ _ (by decide), bucketGet_set_ne _ _ _ _ (by decide),
      bucketGet_set_self]
  · rw [bucketGet_set_ne _ _ _ _ (by decide), bucketGet_set_ne _ _ _ _ (by decide),
      bucketGet_set_ne _ _ _ _ (by decide), bucketGet_set_self]
  · rw [bucketGet_set_ne _ _ _ _ (by decide), bucketGet_set_ne _ _ _ _ (by decide),
      bucketGet_set_self]
  · rw [bucketGet_set_ne _ _ _ _ (by decide), bucketGet_set_self]
  · rw [bucketGet_set_self]

/-- Value size guards extracted from a successful field write. -/
theorem writeMetaFields_ok_conds (b b5 : Bucket) (md : CatMetadata)
    (h : writeMetaFields b md = .ok b5) :
    ¬ 2147483646 < valSize (.str md.ID) ∧
    ¬ 2147483646 < valSize (.str (String.intercalate ", " md.Tags)) ∧
    ¬ 2147483646 < valSize (.str (formatRFC3339 md.CreatedAt)) ∧
    ¬ 2147483646 < valSize (.str md.URL) ∧
    ¬ 2147483646 < valSize (.str md.MIMEType) := by
  unfold writeMetaFields at h
  split at h
  · simp at h
  rename_i b1 h1
  split at h
  · simp at h
  rename_i b2 h2
  split at h
  · simp at h
  rename_i b3 h3
  split at h
  · simp at h
  rename_i b4 h4
  exact ⟨(bucketPut_ok_conds _ _ _ _ h1).2.2.1, (bucketPut_ok_conds _ _ _ _ h2).2.2.1,
    (bucketPut_ok_conds _ _ _ _ h3).2.2.1, (bucketPut_ok_conds _ _ _ _ h4).2.2.1,
    (bucketPut_ok_conds _ _ _ _ h).2.2.1⟩

/-- Re-running the five field writes over a bucket that already holds the
same values succeeds and changes nothing. -/
theorem writeMetaFields_fixpoint (b : Bucket) (md : CatMetadata)
    (h1 : bucketGet b dbKeyMetaId = some (.val (.str md.ID)))
    (h2 : bucketGet b dbKeyMetaTags =
      some (.val (.str (String.intercalate ", " md.Tags))))
    (h3 : bucketGet b dbKeyMetaCreatedAt =
      some (.val (.str (formatRFC3339 md.CreatedAt))))
    (h4 : bucketGet b dbKeyMetaURL = some (.val (.str md.URL)))
    (h5 : bucketGet b dbKeyMetaMIMEType = some (.val (.str md.MIMEType)))
    (c1 : ¬ 2147483646 < valSize (.str md.ID))
    (c2 : ¬ 2147483646 < valSize (.str (String.intercalate ", " md.Tags)))
    (c3 : ¬ 2147483646 < valSize (.str (formatRFC3339 md.CreatedAt)))
    (c4 : ¬ 2147483646 < valSize (.str md.URL))
    (c5 : ¬ 2147483646 < valSize (.str md.MIMEType)) :
    writeMetaFields b md = .ok b := by
  simp only [writeMetaFields,
    bucketPut_val_again b dbKeyMetaId _ (by decide) (by decide) c1 h1,
    bucketPut_val_again b dbKeyMetaTags _ (by decide) (by decide) c2 h2,
    bucketPut_val_again b dbKeyMetaCreatedAt _ (by decide) (by decide) c3 h3,
    bucketPut_val_again b dbKeyMetaURL _ (by decide) (by decide) c4 h4,
    bucketPut_val_again b dbKeyMetaMIMEType _ (by decide) (by decide) c5 h5]

/-- Re-running the version body over a version bucket that already holds
the same metadata and payload succeeds and changes nothing. -/
theorem writeVersionBody_fixpoint (ver : Bucket) (md : CatMetadata)
    (d : List Nat) (mdB dataB : Bucket)
    (hMeta : bucketGet ver bucketMetadata = some (Node.bucket mdB))
    (hData : bucketGet ver bucketData = some (Node.bucket dataB))
    (h1 : bucketGet mdB dbKeyMetaId = some (.val (.str md.ID)))
    (h2 : bucketGet mdB dbKeyMetaTags =
      some (.val (.str (String.intercalate ", " md.Tags))))
    (h3 : bucketGet mdB dbKeyMetaCreatedAt =
      some (.val (.str (formatRFC3339 md.CreatedAt))))
    (h4 : bucketGet mdB dbKeyMetaURL = some (.val (.str md.URL)))
    (h5 : bucketGet mdB dbKeyMetaMIMEType = some (.val (.str md.MIMEType)))
    (hD : bucketGet dataB dbKeyImgData = some (.val (.bytes d)))
    (c1 : ¬ 2147483646 < valSize (.str md.ID))
    (c2 : ¬ 2147483646 < valSize (.str (String.intercalate ", " md.Tags)))
    (c3 : ¬ 2147483646 < valSize (.str (formatRFC3339 md.CreatedAt)))
    (c4 : ¬ 2147483646 < valSize (.str md.URL))
    (c5 : ¬ 2147483646 < valSize (.str md.MIMEType))
    (cD : ¬ 2147483646 < valSize (.bytes d)) :
    writeVersionBody ver md d = .ok ver := by
  have e1 : createBucketIfNotExists ver bucketMetadata = .ok (ver, mdB) :=
    createB_exists_case _ _ _ (by decide) hMeta
  have e2 : writeMetaFields mdB md = .ok mdB :=
    writeMetaFields_fixpoint mdB md h1 h2 h3 h4 h5 c1 c2 c3 c4 c5
  have e3 : bucketSet ver bucketMetadata (Node.bucket mdB) = ver :=
    bucketSet_get_self _ _ _ hMeta
  have e4 : createBucketIfNotExists ver bucketData = .ok (ver, dataB) :=
    createB_exists_case _ _ _ (by decide) hData
  have e5 : bucketPut dataB dbKeyImgData (.bytes d) = .ok dataB :=
    bucketPut_val_again dataB dbKeyImgData _ (by decide) (by decide) cD hD
  have e6 : bucketSet ver bucketData (Node.bucket dataB) = ver :=
    bucketSet_get_self _ _ _ hData
  simp only [writeVersionBody, e1, e2, e3, e4, e5, e6]

/-- The decomposition of a successful AddCatVersion transaction body. -/
theorem addCatVersionTx_ok_shape (root root1 : Store) (md : CatMetadata)
    (vid : String) (d : List Nat)
    (h : addCatVersionTx root md vid d = .ok root1) :
    ∃ b b1 cat cat1 version version1,
      bucketGet root bucketCats = some (Node.bucket b) ∧
      createBucketIfNotExists b md.ID = .ok (b1, cat) ∧
      createBucketIfNotExists cat vid = .ok (cat1, version) ∧
      writeVersionBody version md d = .ok version1 ∧
      root1 = bucketSet root bucketCats (Node.bucket
        (bucketSet b1 md.ID (Node.bucket
          (bucketSet cat1 vid (Node.bucket version1))))) := by
  unfold addCatVersionTx at h
  split at h
  case _ b hRoot =>
    split at h
    · simp at h
    rename_i b1 cat h1
    split at h
    · simp at h
    rename_i cat1 version h2
    split at h
    · simp at h
    rename_i version1 h3
    simp only [Except.ok.injEq] at h
    exact ⟨b, b1, cat, cat1, version, version1, hRoot, h1, h2, h3, h.symm⟩
  case _ => simp at h

/-- C1: for every metadata record and payload for which the write succeeds,
AddCatVersion returns the pair whose first component equals metadata.ID and
whose second component is the version id derived by hashURL from
metadata.URL. -/
theorem addCatVersion_returns_ids (s : Store) (md : CatMetadata)
    (d : List Nat) (e v : String) (s2 : Store)
    (h : AddCatVersion s md d = (.ok (e, v), s2)) :
    e = md.ID ∧ hashURL md.URL = .ok v := by
  unfold AddCatVersion at h
  split at h
  · rename_i e2 heq
    exact absurd heq (by simp [hashURL, fnvWrite])
  rename_i vid heq
  split at h
  · simp at h
  rename_i s3 htx
  simp only [Prod.mk.injEq, Except.ok.injEq] at h
  obtain ⟨⟨hid, hvid⟩, hs⟩ := h
  exact ⟨hid.symm, by rw [heq, hvid]⟩

/-- C1 witness: the concrete scenario write returns the entity id c1 and
the fingerprint of its source URL. -/
theorem addCatVersion_returns_ids_inst :
    "c1" = mdC1.ID ∧ hashURL mdC1.URL = .ok "faff77d2b6f072a3" :=
  addCatVersion_returns_ids initStore mdC1 bytes1 "c1" "faff77d2b6f072a3"
    (AddCatVersion initStore mdC1 bytes1).2 rfl

/-- C2: if any step inside the AddCatVersion transaction fails, the store
state is rolled back unchanged and the underlying cause is what the caller
receives. -/
theorem addCatVersion_rollback (s : Store) (md : CatMetadata) (d : List Nat)
    (e : DBError)
    (h : addCatVersionTx s md (hashHex md.URL) d = .error e) :
    AddCatVersion s md d = (.error e, s) := by
  show (match addCatVersionTx s md (hashHex md.URL) d with
    | .error e => ((.error e : Except DBError (String × String)), s)
    | .ok s1 => (.ok (md.ID, hashHex md.URL), s1)) = (.error e, s)
  rw [h]

/-- C2 witness: an empty entity id makes the first bucket creation fail,
the error propagates, and the store is left exactly as before. -/
theorem addCatVersion_rollback_inst :
    AddCatVersion initStore ⟨"", [], t0, "u", "m"⟩ [] =
      (.error .bucketNameRequired, initStore) :=
  addCatVersion_rollback initStore ⟨"", [], t0, "u", "m"⟩ []
    .bucketNameRequired rfl

/-- C3: a successful write followed by a direct namespace read returns the
serialized metadata fields and the payload bytes exactly as given. -/
theorem addCatVersion_roundtrip (s : Store) (md : CatMetadata) (d : List Nat)
    (e v : String) (s2 : Store)
    (h : AddCatVersion s md d = (.ok (e, v), s2)) :
    pathGet s2 [bucketCats, e, v, bucketMetadata, dbKeyMetaId] =
      some (.val (.str md.ID)) ∧
    pathGet s2 [bucketCats, e, v, bucketMetadata, dbKeyMetaTags] =
      some (.val (.str (String.intercalate ", " md.Tags))) ∧
    pathGet s2 [bucketCats, e, v, bucketMetadata, dbKeyMetaCreatedAt] =
      some (.val (.str (formatRFC3339 md.CreatedAt))) ∧
    pathGet s2 [bucketCats, e, v, bucketMetadata, dbKeyMetaURL] =
      some (.val (.str md.URL)) ∧
    pathGet s2 [bucketCats, e, v, bucketMetadata, dbKeyMetaMIMEType] =
      some (.val (.str md.MIMEType)) ∧
    pathGet s2 [bucketCats, e, v, bucketData, dbKeyImgData] =
      some (.val (.bytes d)) := by
  unfold AddCatVersion at h
  split at h
  · rename_i e2 heq
    exact absurd heq (by simp [hashURL, fnvWrite])
  rename_i vid heq
  split at h
  · simp at h
  rename_i s3 htx
  simp only [Prod.mk.injEq, Except.ok.injEq] at h
  obtain ⟨⟨hid, hvid⟩, hs⟩ := h
  subst hs hid hvid
  obtain ⟨b, b1, cat, cat1, version, version1, hRoot, hC1, hC2, hWV, hS⟩ :=
    addCatVersionTx_ok_shape _ _ _ _ _ htx
  obtain ⟨versionA, mdB0, mdB, versionB, dataB0, hA, hMd, hB, hPut, hV⟩ :=
    writeVersionBody_ok_shape _ _ _ _ hWV
  have hmdB := writeMetaFields_ok_shape _ _ _ hMd
  subst hmdB hV hS
  obtain ⟨-, hgetVB, hkeepB⟩ := createB_ok_parts _ _ _ _ hB
  have hVBmeta : bucketGet versionB bucketMetadata =
      some (Node.bucket (metaSets mdB0 md)) := by
    rw [hkeepB bucketMetadata (by decide), bucketGet_set_self]
  obtain ⟨g1, g2, g3, g4, g5⟩ := metaSets_get mdB0 md
  refine ⟨?_, ?_, ?_, ?_, ?_, ?_⟩ <;>
    simp [pathGet, nodeGet, bucketGet_set_self,
      bucketGet_set_ne _ bucketData bucketMetadata _ (by decide),
      hVBmeta, g1, g2, g3, g4, g5]

/-- C3 witness: reading back the concrete scenario write returns its
serialized fields (tags joined as a, b) and the payload bytes unchanged. -/
theorem addCatVersion_roundtrip_inst :
    pathGet (AddCatVersion initStore mdC1 bytes1).2
      [bucketCats, "c1", "faff77d2b6f072a3", bucketMetadata, dbKeyMetaTags] =
      some (.val (.str "a, b")) ∧
    pathGet (AddCatVersion initStore mdC1 bytes1).2
      [bucketCats, "c1", "faff77d2b6f072a3", bucketMetadata, dbKeyMetaMIMEType] =
      some (.val (.str "image/png")) ∧
    pathGet (AddCatVersion initStore mdC1 bytes1).2
      [bucketCats, "c1", "faff77d2b6f072a3", bucketData, dbKeyImgData] =
      some (.val (.bytes bytes1)) := by
  have h := addCatVersion_roundtrip initStore mdC1 bytes1 "c1"
    "faff77d2b6f072a3" (AddCatVersion initStore mdC1 bytes1).2 rfl
  exact ⟨h.2.1, h.2.2.2.2.1, h.2.2.2.2.2⟩

/-- C4: re-writing the same metadata and payload is idempotent: the second
call succeeds with the same ids and leaves the store bit for bit unchanged,
and on a fresh entity the two writes leave exactly one version bucket. -/
theorem addCatVersion_idempotent (s : Store) (md : CatMetadata)
    (d : List Nat) (e v : String) (s1 : Store)
    (h : AddCatVersion s md d = (.ok (e, v), s1)) :
    AddCatVersion s1 md d = (.ok (e, v), s1) ∧
      (pathGet s [bucketCats, md.ID] = none → versionCount s1 md.ID = 1) := by
  unfold AddCatVersion at h
  split at h
  · rename_i e2 heq
    exact absurd heq (by simp [hashURL, fnvWrite])
  rename_i vid heq
  split at h
  · simp at h
  rename_i s3 htx
  simp only [Prod.mk.injEq, Except.ok.injEq] at h
  obtain ⟨⟨hid, hvid⟩, hs⟩ := h
  subst hs hid hvid
  obtain ⟨b, b1, cat, cat1, version, version1, hRoot, hC1, hC2, hWV, hS⟩ :=
    addCatVersionTx_ok_shape _ _ _ _ _ htx
  obtain ⟨versionA, mdB0, mdB, versionB, dataB0, hA, hMd, hB, hPut, hV⟩ :=
    writeVersionBody_ok_shape _ _ _ _ hWV
  have hmdB := writeMetaFields_ok_shape _ _ _ hMd
  subst hmdB
  obtain ⟨hid_ne, hgetB1, hkeep1⟩ := createB_ok_parts _ _ _ _ hC1
  obtain ⟨hvid_ne, hgetCat1, hkeep2⟩ := createB_ok_parts _ _ _ _ hC2
  obtain ⟨-, hgetVB, hkeepB⟩ := createB_ok_parts _ _ _ _ hB
  obtain ⟨c1, c2, c3, c4, c5⟩ := writeMetaFields_ok_conds _ _ _ hMd
  obtain ⟨-, -, cD, -⟩ := bucketPut_ok_conds _ _ _ _ hPut
  have hVBmeta : bucketGet versionB bucketMetadata =
      some (Node.bucket (metaSets mdB0 md)) := by
    rw [hkeepB bucketMetadata (by decide), bucketGet_set_self]
  obtain ⟨g1, g2, g3, g4, g5⟩ := metaSets_get mdB0 md
  have hMeta : bucketGet version1 bucketMetadata =
      some (Node.bucket (metaSets mdB0 md)) := by
    rw [hV, bucketGet_set_ne _ _ _ _ (by decide), hVBmeta]
  have hData : bucketGet version1 bucketData = some (Node.bucket
      (bucketSet dataB0 dbKeyImgData (.val (.bytes d)))) := by
    rw [hV]
    exact bucketGet_set_self _ _ _
  have hfix : writeVersionBody version1 md d = .ok version1 :=
    writeVersionBody_fixpoint version1 md d _ _ hMeta hData g1 g2 g3 g4 g5
      (bucketGet_set_self _ _ _) c1 c2 c3 c4 c5 cD
  obtain ⟨C, hCdef⟩ : ∃ x, x = bucketSet cat1 vid (Node.bucket version1) :=
    ⟨_, rfl⟩
  obtain ⟨B, hBdef⟩ : ∃ x, x = bucketSet b1 md.ID (Node.bucket C) := ⟨_, rfl⟩
  rw [← hCdef, ← hBdef] at hS
  have hgetC : bucketGet C vid = some (Node.bucket version1) := by
    rw [hCdef]
    exact bucketGet_set_self _ _ _
  have hgetB : bucketGet B md.ID = some (Node.bucket C) := by
    rw [hBdef]
    exact bucketGet_set_self _ _ _
  have hgetS : bucketGet s3 bucketCats = some (Node.bucket B) := by
    rw [hS]
    exact bucketGet_set_self _ _ _
  have hcb1 : createBucketIfNotExists B md.ID = .ok (B, C) :=
    createB_exists_case _ _ _ hid_ne hgetB
  have hcb2 : createBucketIfNotExists C vid = .ok (C, version1) :=
    createB_exists_case _ _ _ hvid_ne hgetC
  have hsetC : bucketSet C vid (Node.bucket version1) = C :=
    bucketSet_get_self _ _ _ hgetC
  have hsetB : bucketSet B md.ID (Node.bucket C) = B :=
    bucketSet_get_self _ _ _ hgetB
  have hsetS : bucketSet s3 bucketCats (Node.bucket B) = s3 :=
    bucketSet_get_self _ _ _ hgetS
  have htx2 : addCatVersionTx s3 md vid d = .ok s3 := by
    unfold addCatVersionTx
    rw [hgetS]
    simp only [hcb1, hcb2, hfix, hsetC, hsetB, hsetS]
  constructor
  · unfold AddCatVersion
    rw [heq]
    simp only [htx2]
  · intro hfresh
    simp only [pathGet, nodeGet, List.foldl, Option.bind, hRoot] at hfresh
    have e0 := createB_none_case b md.ID hid_ne hfresh
    rw [hC1] at e0
    simp only [Except.ok.injEq, Prod.mk.injEq] at e0
    obtain ⟨rfl, rfl⟩ := e0
    have e1 := createB_none_case [] vid hvid_ne rfl
    rw [hC2] at e1
    simp only [Except.ok.injEq, Prod.mk.injEq] at e1
    obtain ⟨rfl, rfl⟩ := e1
    simp [versionCount, pathGet, nodeGet, hgetS, hgetB, hCdef, bucketSet]

/-- C4 witness: the second identical concrete write returns the same ids
and the same store, and the entity holds exactly one version bucket. -/
theorem addCatVersion_idempotent_inst :
    AddCatVersion (AddCatVersion initStore mdC1 bytes1).2 mdC1 bytes1 =
      (.ok ("c1", "faff77d2b6f072a3"), (AddCatVersion initStore mdC1 bytes1).2) ∧
    versionCount (AddCatVersion initStore mdC1 bytes1).2 "c1" = 1 := by
  have h := addCatVersion_idempotent initStore mdC1 bytes1 "c1"
    "faff77d2b6f072a3" (AddCatVersion initStore mdC1 bytes1).2 rfl
  exact ⟨h.1, h.2 rfl⟩

/-- C5 counterexample: the source URLs of mdColl1 and mdColl2 differ, yet
their FNV-64a fingerprints collide, so writing both under the same entity
leaves one version bucket, not two. -/
theorem version_differentiation_cex :
    mdColl1.URL ≠ mdColl2.URL ∧
    (AddCatVersion initStore mdColl1 []).1 =
      .ok ("c1", "4eac0c95540867e4") ∧
    (AddCatVersion (AddCatVersion initStore mdColl1 []).2 mdColl2 []).1 =
      .ok ("c1", "4eac0c95540867e4") ∧
    versionCount
      (AddCatVersion (AddCatVersion initStore mdColl1 []).2 mdColl2 []).2
      "c1" = 1 :=
  ⟨by decide, rfl, rfl, rfl⟩

/-- C5 amended: writing two records with the same entity id and source URLs
whose fingerprints differ leaves two distinct version buckets under that
entity. -/
theorem version_differentiation (s : Store) (md1 md2 : CatMetadata)
    (d1 d2 : List Nat) (e1 v1 e2 v2 : String) (s1 s2 : Store)
    (hid : md2.ID = md1.ID)
    (hfresh : pathGet s [bucketCats, md1.ID] = none)
    (h1 : AddCatVersion s md1 d1 = (.ok (e1, v1), s1))
    (h2 : AddCatVersion s1 md2 d2 = (.ok (e2, v2), s2))
    (hne : hashHex md1.URL ≠ hashHex md2.URL) :
    versionCount s2 md1.ID = 2 := by
  unfold AddCatVersion at h1
  split at h1
  · rename_i e0 heq
    exact absurd heq (by simp [hashURL, fnvWrite])
  rename_i vid1 heq1
  split at h1
  · simp at h1
  rename_i sA htx1
  simp only [Prod.mk.injEq, Except.ok.injEq] at h1
  obtain ⟨⟨-, -⟩, hsA⟩ := h1
  subst hsA
  obtain ⟨b, b1, cat, cat1, version, version1, hRoot, hC1, hC2, hWV, hS⟩ :=
    addCatVersionTx_ok_shape _ _ _ _ _ htx1
  obtain ⟨hid_ne, hgetB1, hkeep1⟩ := createB_ok_parts _ _ _ _ hC1
  obtain ⟨hvid_ne, hgetCat1, hkeep2⟩ := createB_ok_parts _ _ _ _ hC2
  simp only [pathGet, nodeGet, List.foldl, Option.bind, hRoot] at hfresh
  have e0 := createB_none_case b md1.ID hid_ne hfresh
  rw [hC1] at e0
  simp only [Except.ok.injEq, Prod.mk.injEq] at e0
  obtain ⟨rfl, rfl⟩ := e0
  have e1c := createB_none_case [] vid1 hvid_ne rfl
  rw [hC2] at e1c
  simp only [Except.ok.injEq, Prod.mk.injEq] at e1c
  obtain ⟨rfl, rfl⟩ := e1c
  have hC1form : bucketSet (bucketSet [] vid1 (Node.bucket []))
      vid1 (Node.bucket version1) = [(vid1, Node.bucket version1)] := by
    simp [bucketSet]
  rw [hC1form] at hS
  have hB1form : bucketSet (bucketSet b md1.ID (Node.bucket []))
      md1.ID (Node.bucket [(vid1, Node.bucket version1)]) =
      bucketSet b md1.ID (Node.bucket [(vid1, Node.bucket version1)]) :=
    bucketSet_set_same _ _ _ _
  rw [hB1form] at hS
  unfold AddCatVersion at h2
  split at h2
  · rename_i e0 heq
    exact absurd heq (by simp [hashURL, fnvWrite])
  rename_i vid2 heq2
  split at h2
  · simp at h2
  rename_i sB htx2
  simp only [Prod.mk.injEq, Except.ok.injEq] at h2
  obtain ⟨⟨-, -⟩, hsB⟩ := h2
  subst hsB
  obtain ⟨b2, b3, cat2, cat3, version2, version3, hRoot2, hC1b, hC2b, hWVb, hSb⟩ :=
    addCatVersionTx_ok_shape _ _ _ _ _ htx2
  have hv1 : vid1 = hashHex md1.URL := by
    have hh : hashURL md1.URL = .ok (hashHex md1.URL) := rfl
    rw [hh] at heq1
    simp only [Except.ok.injEq] at heq1
    exact heq1.symm
  have hv2 : vid2 = hashHex md2.URL := by
    have hh : hashURL md2.URL = .ok (hashHex md2.URL) := rfl
    rw [hh] at heq2
    simp only [Except.ok.injEq] at heq2
    exact heq2.symm
  have hvne : vid1 ≠ vid2 := by
    rw [hv1, hv2]
    exact hne
  have hgetSA : bucketGet sA bucketCats = some (Node.bucket
      (bucketSet b md1.ID (Node.bucket [(vid1, Node.bucket version1)]))) := by
    rw [hS]
    exact bucketGet_set_self _ _ _
  rw [hgetSA] at hRoot2
  simp only [Option.some.injEq, Node.bucket.injEq] at hRoot2
  subst hRoot2
  rw [hid] at hC1b hSb
  have eC1b := createB_exists_case
    (bucketSet b md1.ID (Node.bucket [(vid1, Node.bucket version1)]))
    md1.ID [(vid1, Node.bucket version1)] hid_ne (bucketGet_set_self _ _ _)
  rw [hC1b] at eC1b
  simp only [Except.ok.injEq, Prod.mk.injEq] at eC1b
  obtain ⟨rfl, rfl⟩ := eC1b
  obtain ⟨hvid2_ne, -, -⟩ := createB_ok_parts _ _ _ _ hC2b
  have hget2 : bucketGet [(vid1, Node.bucket version1)] vid2 = none := by
    simp [bucketGet, hvne]
  have eC2b := createB_none_case [(vid1, Node.bucket version1)] vid2
    hvid2_ne hget2
  rw [hC2b] at eC2b
  simp only [Except.ok.injEq, Prod.mk.injEq] at eC2b
  obtain ⟨rfl, rfl⟩ := eC2b
  subst hSb
  simp [versionCount, pathGet, nodeGet, bucketGet_set_self, bucketSet, hvne]

/-- C5 amended witness: two concrete URLs with distinct fingerprints under
the same entity produce two version buckets. -/
theorem version_differentiation_inst :
    versionCount
      (AddCatVersion (AddCatVersion initStore mdC1 bytes1).2 mdC2 []).2
      "c1" = 2 :=
  version_differentiation initStore mdC1 mdC2 bytes1 [] "c1"
    "faff77d2b6f072a3" "c1" "d8e285df86f56af6"
    (AddCatVersion initStore mdC1 bytes1).2
    (AddCatVersion (AddCatVersion initStore mdC1 bytes1).2 mdC2 []).2
    rfl rfl rfl rfl (by decide)

/-- C6: after a successful write into a slot that was previously absent or
previously written by AddCatVersion, the version bucket holds exactly two
children: the five field string metadata bucket (tags joined with comma
and space, createdAt in the fixed RFC3339 layout) and the single key data
bucket with the raw payload. -/
theorem version_bucket_canonical (s : Store) (md : CatMetadata)
    (d : List Nat) (e v : String) (s2 : Store)
    (hpre : pathGet s [bucketCats, md.ID, hashHex md.URL] = none ∨
      ∃ md0 d0, pathGet s [bucketCats, md.ID, hashHex md.URL] =
        some (canonicalVersion md0 d0))
    (h : AddCatVersion s md d = (.ok (e, v), s2)) :
    pathGet s2 [bucketCats, e, v] = some (canonicalVersion md d) := by
  unfold AddCatVersion at h
  split at h
  · rename_i e0 heq
    exact absurd heq (by simp [hashURL, fnvWrite])
  rename_i vid heq
  split at h
  · simp at h
  rename_i s3 htx
  simp only [Prod.mk.injEq, Except.ok.injEq] at h
  obtain ⟨⟨hid, hvid⟩, hs⟩ := h
  subst hs hid hvid
  have hv : vid = hashHex md.URL := by
    have hh : hashURL md.URL = .ok (hashHex md.URL) := rfl
    rw [hh] at heq
    simp only [Except.ok.injEq] at heq
    exact heq.symm
  rw [← hv] at hpre
  obtain ⟨b, b1, cat, cat1, version, version1, hRoot, hC1, hC2, hWV, hS⟩ :=
    addCatVersionTx_ok_shape _ _ _ _ _ htx
  obtain ⟨hid_ne, hgetB1, hkeep1⟩ := createB_ok_parts _ _ _ _ hC1
  obtain ⟨hvid_ne, hgetCat1, hkeep2⟩ := createB_ok_parts _ _ _ _ hC2
  simp only [pathGet, nodeGet, List.foldl, Option.bind, hRoot] at hpre
  have hver : version = [] ∨ ∃ md0 d0, version = canonContents md0 d0 := by
    rcases hpre with hnone | ⟨md0, d0, hsome⟩
    · cases hb : bucketGet b md.ID with
      | none =>
          have e0 := createB_none_case b md.ID hid_ne hb
          rw [hC1] at e0
          simp only [Except.ok.injEq, Prod.mk.injEq] at e0
          obtain ⟨rfl, rfl⟩ := e0
          have e1 := createB_none_case [] vid hvid_ne rfl
          rw [hC2] at e1
          simp only [Except.ok.injEq, Prod.mk.injEq] at e1
          exact Or.inl e1.2
      | some node =>
          rw [hb] at hnone
          cases node with
          | val w =>
              have ebad : createBucketIfNotExists b md.ID =
                  .error .incompatibleValue := by
                unfold createBucketIfNotExists
                rw [if_neg hid_ne, hb]
              rw [hC1] at ebad
              simp at ebad
          | bucket cat0 =>
              have e0 := createB_exists_case b md.ID cat0 hid_ne hb
              rw [hC1] at e0
              simp only [Except.ok.injEq, Prod.mk.injEq] at e0
              obtain ⟨rfl, rfl⟩ := e0
              simp only [nodeGet] at hnone
              have e1 := createB_none_case _ vid hvid_ne hnone
              rw [hC2] at e1
              simp only [Except.ok.injEq, Prod.mk.injEq] at e1
              exact Or.inl e1.2
    · cases hb : bucketGet b md.ID with
      | none => rw [hb] at hsome; simp at hsome
      | some node =>
          rw [hb] at hsome
          cases node with
          | val w => simp [nodeGet] at hsome
          | bucket cat0 =>
              simp only [nodeGet] at hsome
              have e0 := createB_exists_case b md.ID cat0 hid_ne hb
              rw [hC1] at e0
              simp only [Except.ok.injEq, Prod.mk.injEq] at e0
              obtain ⟨rfl, rfl⟩ := e0
              have e1 := createB_exists_case _ vid (canonContents md0 d0)
                hvid_ne hsome
              rw [hC2] at e1
              simp only [Except.ok.injEq, Prod.mk.injEq] at e1
              exact Or.inr ⟨md0, d0, e1.2⟩
  have hver1 : version1 = canonContents md d := by
    rcases hver with rfl | ⟨md0, d0, rfl⟩
    · exact writeVersionBody_from_nil md d version1 hWV
    · exact writeVersionBody_from_canon md0 md d0 d version1 hWV
  subst hS hver1
  simp [pathGet, nodeGet, bucketGet_set_self, canonicalVersion]

/-- C6 witness: the concrete scenario write into a fresh slot produces
exactly the canonical two child version bucket. -/
theorem version_bucket_canonical_inst :
    pathGet (AddCatVersion initStore mdC1 bytes1).2
      [bucketCats, "c1", "faff77d2b6f072a3"] =
      some (canonicalVersion mdC1 bytes1) :=
  version_bucket_canonical initStore mdC1 bytes1 "c1" "faff77d2b6f072a3"
    (AddCatVersion initStore mdC1 bytes1).2 (Or.inl rfl) rfl

/-- C7 counterexample: the hex rendering is not fixed width: one URL gets a
16 digit version id while another gets 13 digits, so the width depends on
the input. -/
theorem hashURL_not_fixed_width_cex :
    hashURL "https://x/1.png" = .ok "faff77d2b6f072a3" ∧
    hashURL "https://x/3163.png" = .ok "27f4ca3da7b85" ∧
    String.length "faff77d2b6f072a3" = 16 ∧
    String.length "27f4ca3da7b85" = 13 :=
  ⟨rfl, rfl, rfl, rfl⟩

/-- C7 amended: hashURL renders the 64 bit FNV-64a fingerprint as minimal
width lowercase hex with no zero padding: between 1 and 16 digits. -/
theorem hashURL_hex_width (url : String) :
    fnv64a (strBytes url) < 2 ^ 64 ∧
    hashURL url = .ok (hashHex url) ∧
    1 ≤ (hashHex url).length ∧ (hashHex url).length ≤ 16 := by
  refine ⟨fnv64a_lt _, rfl, ?_, ?_⟩
  · have h := hexCharsAux_len_ge 15 (fnv64a (strBytes url)) []
    simpa [hashHex, sprintfHex, String.length] using h
  · have hlt : fnv64a (strBytes url) < 16 ^ 16 := by
      have := fnv64a_lt (strBytes url)
      omega
    have h := hexCharsAux_len_le 16 (fnv64a (strBytes url)) [] hlt
    simpa [hashHex, sprintfHex, String.length] using h

/-- C8: the fingerprint is a deterministic pure function of the input
bytes: the fold starts from a fixed offset basis with a fixed prime, so any
two calls on strings with equal byte content give equal results. -/
theorem hashURL_deterministic (u1 u2 : String)
    (h : strBytes u1 = strBytes u2) : hashURL u1 = hashURL u2 := by
  unfold hashURL fnvWrite
  rw [h]

/-- C8 witness: two calls on the same URL give the same result. -/
theorem hashURL_deterministic_inst :
    hashURL "https://x/1.png" = hashURL "https://x/1.png" :=
  hashURL_deterministic "https://x/1.png" "https://x/1.png" rfl

/-- C9: a successful OpenDB always yields a store containing the top level
cats bucket; a failing file open or a failing InitDB surfaces as an error
with no store returned. -/
theorem openDB_ensures_cats (r : Except DBError Store) :
    (∀ s1, OpenDB r = .ok s1 →
      ∃ cb, bucketGet s1 bucketCats = some (Node.bucket cb)) ∧
    (∀ e, r = .error e → OpenDB r = .error e) ∧
    (∀ s e, r = .ok s → InitDB s = .error e → OpenDB r = .error e) := by
  refine ⟨?_, ?_, ?_⟩
  · intro s1 h
    unfold OpenDB at h
    split at h
    · simp at h
    rename_i s hr
    split at h
    · simp at h
    rename_i s2 hinit
    simp only [Except.ok.injEq] at h
    subst h
    unfold InitDB at hinit
    split at hinit
    · simp at hinit
    rename_i s3 cb hc
    simp only [Except.ok.injEq] at hinit
    subst hinit
    obtain ⟨-, hg, -⟩ := createB_ok_parts _ _ _ _ hc
    exact ⟨cb, hg⟩
  · intro e he
    subst he
    rfl
  · intro s e hr hinit
    subst hr
    show (match InitDB s with
      | .error e => (.error e : Except DBError Store)
      | .ok s1 => .ok s1) = .error e
    rw [hinit]

/-- C9 witness: opening a fresh file creates the cats bucket; a failed file
open propagates the error. -/
theorem openDB_ensures_cats_inst :
    (∃ cb, bucketGet initStore bucketCats = some (Node.bucket cb)) ∧
    OpenDB (.error .openFailed) = .error .openFailed :=
  ⟨(openDB_ensures_cats (.ok [])).1 initStore rfl,
   (openDB_ensures_cats (.error .openFailed)).2.1 .openFailed rfl⟩

/-- C10: the error branch of hashURL is dead code: the modelled fnv Write
never fails, so hashURL always succeeds, and any AddCatVersion failure is
exactly a transaction body failure, never a hash derivation failure. -/
theorem hashURL_never_errors :
    (∀ url, hashURL url = .ok (hashHex url)) ∧
    (∀ s md d e, (AddCatVersion s md d).1 = .error e →
      addCatVersionTx s md (hashHex md.URL) d = .error e) := by
  constructor
  · intro url
    rfl
  · intro s md d e h
    have key : AddCatVersion s md d =
        (match addCatVersionTx s md (hashHex md.URL) d with
          | .error e => ((.error e : Except DBError (String × String)), s)
          | .ok s1 => (.ok (md.ID, hashHex md.URL), s1)) := rfl
    cases htx : addCatVersionTx s md (hashHex md.URL) d with
    | error e2 =>
        rw [key, htx] at h
        simp only [Except.error.injEq] at h
        rw [h]
    | ok s1 =>
        rw [key, htx] at h
        simp at h

/-- C10 witness: hashURL succeeds on a concrete URL, and a concrete failing
AddCatVersion owes its error to the transaction body. -/
theorem hashURL_never_errors_inst :
    hashURL "u" = .ok (hashHex "u") ∧
    addCatVersionTx initStore ⟨"", [], t0, "u", "m"⟩ (hashHex "u") [] =
      .error .bucketNameRequired :=
  ⟨hashURL_never_errors.1 "u",
   hashURL_never_errors.2 initStore ⟨"", [], t0, "u", "m"⟩ []
     .bucketNameRequired rfl⟩

end CatDB
